import Mathlib

/-!
Shallow embedding of the satonic-api auction engine: the auction data
model, the service-level PlaceBid / FinalizeAuction / ProcessEndedAuctions
operations, the repository-level CreateBid / CompleteAuction operations,
and the websocket broadcast hub.  Times and amounts are modelled as `Int`
(Go `time.Time` ordered by `Before`/`After`, and `int64` satoshi amounts);
Go `nil`-able pointers become `Option`; Go maps become association lists.
-/

namespace Satonic

/-- Embeds `models.AuctionStatus`: draft, active, completed, cancelled. -/
inductive AuctionStatus where
  | draft
  | active
  | completed
  | cancelled
deriving DecidableEq, Repr

/-- Embeds `models.Auction` (the fields the auction engine reads and writes).
`currentBid`/`currentBidderId` are the denormalized leading-bid pointer;
`reservePrice` and `buyNowPrice` are optional. -/
structure Auction where
  id : String
  nftId : String
  sellerWalletId : String
  startPrice : Int
  reservePrice : Option Int
  buyNowPrice : Option Int
  currentBid : Option Int
  currentBidderId : Option String
  startTime : Int
  endTime : Int
  status : AuctionStatus
  psbt : String
  createdAt : Int
  updatedAt : Int
deriving DecidableEq, Repr

/-- Embeds `models.Bid`. -/
structure Bid where
  id : String
  auctionId : String
  bidderId : String
  walletId : String
  amount : Int
  createdAt : Int
  accepted : Bool
  signature : Option String
deriving DecidableEq, Repr

/-- One auction together with its bid rows, the state touched by
`AuctionRepository.CreateBid`'s transaction. -/
structure AuctionState where
  auction : Auction
  bids : List Bid
deriving DecidableEq, Repr

/-- Embeds `AuctionRepository.CreateBid`: inside one transaction, insert the bid
row, re-read `current_bid`, and update `current_bid`/`current_bidder_id`
when the read value is NULL or less than the new amount
(`!currentBid.Valid || bid.Amount > currentBid.Int64`). -/
def createBid (st : AuctionState) (bid : Bid) : AuctionState :=
  match st.auction.currentBid with
  | none =>
      { auction := { st.auction with
          currentBid := some bid.amount
          currentBidderId := some bid.bidderId }
        bids := st.bids ++ [bid] }
  | some cb =>
      if cb < bid.amount then
        { auction := { st.auction with
            currentBid := some bid.amount
            currentBidderId := some bid.bidderId }
          bids := st.bids ++ [bid] }
      else
        { auction := st.auction, bids := st.bids ++ [bid] }

/-- The failure kinds `AuctionService.PlaceBid` returns, one per
`fmt.Errorf` site (in source order). -/
inductive PlaceBidError where
  | auctionNotActive
  | notStartedYet
  | hasEnded
  | lowerThanCurrentBid
  | belowStartPrice
  | walletNotOwned
  | insufficientBalance
deriving DecidableEq, Repr

/-- The request body of `PlaceBid` (`models.PlaceBidRequest`). -/
structure PlaceBidRequest where
  auctionId : String
  walletId : String
  amount : Int
deriving DecidableEq, Repr

/-- The check `auction.CurrentBid != nil && req.Amount <= *auction.CurrentBid`. -/
def amountLeCurrent (a : Auction) (amount : Int) : Bool :=
  match a.currentBid with
  | none => false
  | some cb => amount ≤ cb

/-- Embeds `AuctionService.PlaceBid` on a found auction: status gate, window
gates (`time.Now().Before(StartTime)`, `time.Now().After(EndTime)`),
amount gates against `currentBid` then `startPrice`, wallet-ownership and
balance gates (the external collaborators appear as the `walletOwned` and
`balance` inputs), then `CreateBid` with an `Accepted: true` bid. -/
def placeBid (st : AuctionState) (now : Int) (req : PlaceBidRequest)
    (userID : String) (bidID : String) (walletOwned : Bool) (balance : Int) :
    Except PlaceBidError (AuctionState × Bid) :=
  let a := st.auction
  if a.status ≠ AuctionStatus.active then .error .auctionNotActive
  else if now < a.startTime then .error .notStartedYet
  else if a.endTime < now then .error .hasEnded
  else if amountLeCurrent a req.amount then .error .lowerThanCurrentBid
  else if req.amount < a.startPrice then .error .belowStartPrice
  else if !walletOwned then .error .walletNotOwned
  else if balance < req.amount then .error .insufficientBalance
  else
    let bid : Bid :=
      { id := bidID
        auctionId := req.auctionId
        bidderId := userID
        walletId := req.walletId
        amount := req.amount
        createdAt := now
        accepted := true
        signature := none }
    .ok (createBid st bid, bid)

/-- One attempted `PlaceBid` call: its arrival time, the request, and the
values the external collaborators answer for it. -/
structure BidAttempt where
  now : Int
  amount : Int
  bidderId : String
  walletId : String
  bidID : String
  walletOwned : Bool
  balance : Int
deriving DecidableEq, Repr

/-- Apply one `PlaceBid` attempt: on success the state advances, on any
failure it is unchanged. -/
def stepBid (st : AuctionState) (r : BidAttempt) : AuctionState :=
  match placeBid st r.now ⟨st.auction.id, r.walletId, r.amount⟩
      r.bidderId r.bidID r.walletOwned r.balance with
  | .ok (st', _) => st'
  | .error _ => st

/-- A sequence of `PlaceBid` attempts applied in order. -/
def runBids (st : AuctionState) (rs : List BidAttempt) : AuctionState :=
  rs.foldl stepBid st

/-- The maximum amount among the accepted bids of a list, `none` when no
bid is accepted. -/
def maxAccepted : List Bid → Option Int
  | [] => none
  | b :: bs =>
      match maxAccepted bs with
      | none => if b.accepted then some b.amount else none
      | some m => if b.accepted then some (max b.amount m) else some m

/-- Ordering on optional bid values: an absent bid is below everything. -/
def obLe : Option Int → Option Int → Prop
  | none, _ => True
  | some _, none => False
  | some x, some y => x ≤ y

instance : ∀ a b, Decidable (obLe a b) := by
  intro a b
  cases a <;> cases b <;> simp [obLe] <;> infer_instance

/-! ### FinalizeAuction (service level) -/

/-- The failure kinds `AuctionService.FinalizeAuction` returns, one per
`fmt.Errorf` site (in source order). -/
inductive FinalizeError where
  | auctionNotActive
  | notEnded
  | notWinningBidder
deriving DecidableEq, Repr

/-- Embeds `auction.BuyNowPrice != nil && auction.CurrentBid != nil &&
*auction.CurrentBid >= *auction.BuyNowPrice`. -/
def buyNowTriggered (a : Auction) : Bool :=
  match a.buyNowPrice, a.currentBid with
  | some bn, some cb => bn ≤ cb
  | _, _ => false

/-- Embeds `auction.ReservePrice != nil && *auction.CurrentBid < *auction.ReservePrice`
(evaluated when `currentBid` is present). -/
def reserveUnmet (a : Auction) : Bool :=
  match a.reservePrice, a.currentBid with
  | some rp, some cb => cb < rp
  | _, _ => false

/-- Embeds `AuctionService.FinalizeAuction` on a found auction: status gate, the
time/buy-now gate (`!time.Now().After(EndTime) && !buyNowTriggered`), the
no-bids cancellation branch, the reserve-unmet cancellation branch, the
winning-bidder authorization check, then completion.  The result is the
auction with its new status. -/
def finalizeAuction (a : Auction) (now : Int) (userID : String) :
    Except FinalizeError Auction :=
  if a.status ≠ AuctionStatus.active then .error .auctionNotActive
  else if ¬ a.endTime < now ∧ buyNowTriggered a = false then .error .notEnded
  else
    match a.currentBid, a.currentBidderId with
    | none, _ => .ok { a with status := AuctionStatus.cancelled }
    | some _, none => .ok { a with status := AuctionStatus.cancelled }
    | some _, some bidder =>
        if reserveUnmet a then .ok { a with status := AuctionStatus.cancelled }
        else if bidder ≠ userID then .error .notWinningBidder
        else .ok { a with status := AuctionStatus.completed }

/-! ### CompleteAuction (repository level) -/

/-- An `nfts` row (the columns `CompleteAuction`'s `UPDATE nfts` touches
plus every other column, so frame conditions can be stated). -/
structure NFTRow where
  id : String
  walletId : String
  tokenId : String
  inscriptionId : String
  collection : String
  title : String
  description : Option String
  imageUrl : Option String
  contentUrl : Option String
  metadata : Option String
  createdAt : Int
  updatedAt : Int
  auctionId : Option String
deriving DecidableEq, Repr

/-- The rows `AuctionRepository.CompleteAuction`'s transaction touches. -/
structure Store where
  auctions : List Auction
  nfts : List NFTRow
deriving DecidableEq, Repr

/-- Embeds `AuctionRepository.CompleteAuction`: in one transaction set the
auction's status and `updated_at`; when the status is `completed` keep
the NFT's `auction_id` for history, otherwise set `auction_id` to NULL
(and `updated_at`) on every NFT row referencing the auction. -/
def completeAuction (db : Store) (auctionID : String)
    (status : AuctionStatus) (now : Int) : Store :=
  let auctions := db.auctions.map fun r =>
    if r.id = auctionID then { r with status := status, updatedAt := now } else r
  if status = AuctionStatus.completed then
    { db with auctions := auctions }
  else
    { auctions := auctions
      nfts := db.nfts.map fun n =>
        if n.auctionId = some auctionID then
          { n with auctionId := none, updatedAt := now }
        else n }

/-! ### ProcessEndedAuctions (the reaper sweep) -/

/-- Embeds `AuctionService.ProcessEndedAuctions` over the list returned by
`GetEndedAuctions`.  `failOn` says which `CompleteAuction` calls the
repository fails (a storage failure); the result is the list of
`(auctionID, status)` transitions applied before the sweep returned,
together with the returned error, `some id` naming the auction whose
`CompleteAuction` failed.  The Go loop returns the error immediately. -/
def processEnded (failOn : String → Bool) :
    List Auction → List (String × AuctionStatus) × Option String
  | [] => ([], none)
  | a :: rest =>
      if a.currentBid.isNone || a.currentBidderId.isNone then
        if failOn a.id then ([], some a.id)
        else
          let r := processEnded failOn rest
          ((a.id, AuctionStatus.cancelled) :: r.1, r.2)
      else if reserveUnmet a then
        if failOn a.id then ([], some a.id)
        else
          let r := processEnded failOn rest
          ((a.id, AuctionStatus.cancelled) :: r.1, r.2)
      else processEnded failOn rest

/-! ### The broadcast hub (`handlers.Hub`)

Sessions are identified by strings.  `clients` embeds the Go map
`map[*Client]bool`; `auctionClients` embeds
`map[string]map[*Client]bool` as an association list; `closed` records
every session whose send channel the hub has closed. -/

structure HubState where
  clients : List String
  auctionClients : List (String × List String)
  closed : List String
deriving DecidableEq, Repr

/-- The empty hub `NewHub` builds. -/
def hubInit : HubState := { clients := [], auctionClients := [], closed := [] }

/-- Map lookup on the `auctionClients` association list. -/
def lookupSubs : List (String × List String) → String → Option (List String)
  | [], _ => none
  | (k, v) :: rest, aid => if k = aid then some v else lookupSubs rest aid

/-- Replace the subscriber list stored under an existing key. -/
def setSubs : List (String × List String) → String → List String →
    List (String × List String)
  | [], _, _ => []
  | (k, w) :: rest, aid, v =>
      if k = aid then (k, v) :: rest else (k, w) :: setSubs rest aid v

/-- Delete a key (Go `delete(h.auctionClients, auctionID)`). -/
def removeSubsKey : List (String × List String) → String →
    List (String × List String)
  | [], _ => []
  | (k, w) :: rest, aid =>
      if k = aid then rest else (k, w) :: removeSubsKey rest aid

/-- The subscriber set of one auction (empty when the key is absent). -/
def subsOf (s : HubState) (aid : String) : List String :=
  (lookupSubs s.auctionClients aid).getD []

/-- One input the hub consumes.  The broadcast steps carry the set of
sessions whose bounded send queue is full at that moment (the `default`
branch of the Go `select`). -/
inductive HubStep where
  | register (c : String)
  | unregister (c : String)
  | subscribe (c : String) (aid : String)
  | unsubscribe (c : String) (aid : String)
  | broadcastAll (full : List String)
  | broadcastAuction (aid : String) (full : List String)
deriving DecidableEq, Repr

/-- The hub's handling of one input, following `Hub.Run`,
`Hub.RegisterAuctionClient`, `Hub.UnregisterAuctionClient` and
`Hub.BroadcastToAuction`:

* `register`: `h.clients[client] = true`.
* `unregister`: when present, delete from `clients` and close the channel.
* `subscribe`: create the auction's set when absent, add the session.
* `unsubscribe`: delete the session from the auction's set; delete the
  set when it becomes empty.
* `broadcastAll` (`Hub.Run`'s broadcast case): every registered session
  with a full queue is closed and deleted from `clients` — and from
  nothing else.
* `broadcastAuction` (`Hub.BroadcastToAuction`): every subscriber of that
  auction with a full queue is closed and deleted from `clients` and from
  that auction's set — other auctions' sets are not touched. -/
def hubStep (s : HubState) : HubStep → HubState
  | .register c =>
      { s with clients := if c ∈ s.clients then s.clients else s.clients ++ [c] }
  | .unregister c =>
      if c ∈ s.clients then
        { s with
            clients := s.clients.filter fun x => decide (x ≠ c)
            closed := s.closed ++ [c] }
      else s
  | .subscribe c aid =>
      match lookupSubs s.auctionClients aid with
      | none => { s with auctionClients := s.auctionClients ++ [(aid, [c])] }
      | some subs =>
          { s with auctionClients :=
              (setSubs s.auctionClients aid
                (if c ∈ subs then subs else subs ++ [c])) }
  | .unsubscribe c aid =>
      match lookupSubs s.auctionClients aid with
      | none => s
      | some subs =>
          let subs' := subs.filter fun x => decide (x ≠ c)
          if subs'.isEmpty then
            { s with auctionClients := removeSubsKey s.auctionClients aid }
          else
            { s with auctionClients := setSubs s.auctionClients aid subs' }
  | .broadcastAll full =>
      let overflowed := s.clients.filter fun c => decide (c ∈ full)
      { s with
          clients := s.clients.filter fun c => decide (c ∉ full)
          closed := s.closed ++ overflowed }
  | .broadcastAuction aid full =>
      match lookupSubs s.auctionClients aid with
      | none => s
      | some subs =>
          let overflowed := subs.filter fun c => decide (c ∈ full)
          { clients := s.clients.filter fun c => decide (¬ (c ∈ subs ∧ c ∈ full))
            auctionClients :=
              setSubs s.auctionClients aid (subs.filter fun c => decide (c ∉ full))
            closed := s.closed ++ overflowed }

/-- A sequence of hub inputs consumed in arrival order. -/
def hubRun (s : HubState) (steps : List HubStep) : HubState :=
  steps.foldl hubStep s

/-! ### ServeWs -/

/-- What `r.Context().Value("userID")` can hold: a string, nothing, or a
non-string value.  Go's unchecked assertion `.(string)` panics on the
latter two. -/
inductive CtxValue where
  | strVal (s : String)
  | absent
  | nonString
deriving DecidableEq, Repr

/-- The externally visible actions of `ServeWs`, in order. -/
inductive ServeEvent where
  | upgraded
  | clientRegistered (userID : String)
  | welcomeSent
deriving DecidableEq, Repr

/-- The outcome of one `ServeWs` call: the actions it performed before
returning or panicking, and whether it panicked. -/
structure ServeOutcome where
  events : List ServeEvent
  panicked : Bool
deriving DecidableEq, Repr

/-- Embeds `handlers.ServeWs`: upgrade (on failure, log and return); read the
context value under "userID" with the unchecked assertion `.(string)`
(panicking unless it holds a string); build the client, send it to the
hub's register channel, queue the welcome message, start the pumps. -/
def serveWs (upgradeOk : Bool) (ctxUserID : CtxValue) : ServeOutcome :=
  if !upgradeOk then { events := [], panicked := false }
  else
    match ctxUserID with
    | .strVal uid =>
        { events := [ServeEvent.upgraded, ServeEvent.clientRegistered uid,
            ServeEvent.welcomeSent]
          panicked := false }
    | _ => { events := [ServeEvent.upgraded], panicked := true }

/-! ### Interleaved CreateBid transactions

`AuctionRepository.CreateBid` issues three separate statements: INSERT
the bid row, SELECT `current_bid`, and a conditional UPDATE.  Under
concurrent execution with no row lock between the SELECT and the UPDATE,
statements of two transactions on the same auction may interleave.  Each
statement is atomic; the schedule picks which transaction runs its next
statement. -/

/-- The shared auction row and bid table the two transactions touch. -/
structure DbState where
  currentBid : Option Int
  currentBidderId : Option String
  rows : List (String × Int)
deriving DecidableEq, Repr

/-- One in-flight `CreateBid` transaction: its bid, its program counter
(0 = about to INSERT, 1 = about to SELECT, 2 = about to UPDATE, 3 =
done), and the `current_bid` value its SELECT read. -/
structure TxState where
  bidder : String
  amount : Int
  pc : Nat
  readVal : Option Int
deriving DecidableEq, Repr

/-- A fresh `CreateBid` transaction for one bid. -/
def txInit (bidder : String) (amount : Int) : TxState :=
  { bidder := bidder, amount := amount, pc := 0, readVal := none }

/-- Run the transaction's next statement against the shared state. -/
def txStep (db : DbState) (t : TxState) : DbState × TxState :=
  match t.pc with
  | 0 => ({ db with rows := db.rows ++ [(t.bidder, t.amount)] }, { t with pc := 1 })
  | 1 => (db, { t with pc := 2, readVal := db.currentBid })
  | 2 =>
      match t.readVal with
      | none =>
          ({ db with currentBid := some t.amount, currentBidderId := some t.bidder },
            { t with pc := 3 })
      | some cb =>
          if cb < t.amount then
            ({ db with currentBid := some t.amount, currentBidderId := some t.bidder },
              { t with pc := 3 })
          else (db, { t with pc := 3 })
  | _ => (db, t)

/-- Interleave two `CreateBid` transactions under a schedule: `true`
advances the first transaction by one statement, `false` the second. -/
def runTwoTx (db : DbState) (t1 t2 : TxState) :
    List Bool → DbState × TxState × TxState
  | [] => (db, t1, t2)
  | true :: rest =>
      let (db', t1') := txStep db t1
      runTwoTx db' t1' t2 rest
  | false :: rest =>
      let (db', t2') := txStep db t2
      runTwoTx db' t1 t2' rest

/-! ### Concrete fixtures -/

/-- An active auction: start price 100000, window `[0, 100]`, no reserve,
no buy-now, no bids yet. -/
def exAuction : Auction :=
  { id := "a1"
    nftId := "n1"
    sellerWalletId := "w0"
    startPrice := 100000
    reservePrice := none
    buyNowPrice := none
    currentBid := none
    currentBidderId := none
    startTime := 0
    endTime := 100
    status := AuctionStatus.active
    psbt := "p"
    createdAt := 0
    updatedAt := 0 }

/-- The auction `exAuction` after an accepted bid of 150000 by `u1`. -/
def exAuctionBid : Auction :=
  { exAuction with currentBid := some 150000, currentBidderId := some "u1" }

/-- A second ended auction with no bids, for the reaper sweep. -/
def endedA2 : Auction := { exAuction with id := "a2" }

/-- The spec's example scenario 1: bids 150000, 120000, 200000 from three
bidders with ample balances. -/
def exAttempts : List BidAttempt :=
  [⟨5, 150000, "u1", "w1", "b1", true, 10000000⟩,
   ⟨6, 120000, "u2", "w2", "b2", true, 10000000⟩,
   ⟨7, 200000, "u3", "w3", "b3", true, 10000000⟩]

/-- A hub trace: one session registers, subscribes to auction `A`, then a
global broadcast arrives while its queue is full. -/
def c9trace : List HubStep :=
  [HubStep.register "s1", HubStep.subscribe "s1" "A", HubStep.broadcastAll ["s1"]]

/-- A hub holding one session subscribed to auctions `A` and `B`. -/
def exHub : HubState :=
  { clients := ["s1"]
    auctionClients := [("A", ["s1"]), ("B", ["s1"])]
    closed := [] }

/-- A two-row store: one auction and one NFT referencing it. -/
def exStore : Store :=
  { auctions := [exAuctionBid]
    nfts := [{ id := "n1", walletId := "w0", tokenId := "t", inscriptionId := "i",
               collection := "c", title := "T", description := none,
               imageUrl := none, contentUrl := none, metadata := none,
               createdAt := 0, updatedAt := 0, auctionId := some "a1" }] }

/-- The NFT columns `CompleteAuction` must leave untouched: everything
except `auction_id` and `updated_at`. -/
def nftOtherFieldsEq (n n' : NFTRow) : Prop :=
  n'.id = n.id ∧ n'.walletId = n.walletId ∧ n'.tokenId = n.tokenId ∧
  n'.inscriptionId = n.inscriptionId ∧ n'.collection = n.collection ∧
  n'.title = n.title ∧ n'.description = n.description ∧
  n'.imageUrl = n.imageUrl ∧ n'.contentUrl = n.contentUrl ∧
  n'.metadata = n.metadata ∧ n'.createdAt = n.createdAt

/-- The auction columns `CompleteAuction` must leave untouched:
everything except `status` and `updated_at`. -/
def auctionOtherFieldsEq (r r' : Auction) : Prop :=
  r'.id = r.id ∧ r'.nftId = r.nftId ∧ r'.sellerWalletId = r.sellerWalletId ∧
  r'.startPrice = r.startPrice ∧ r'.reservePrice = r.reservePrice ∧
  r'.buyNowPrice = r.buyNowPrice ∧ r'.currentBid = r.currentBid ∧
  r'.currentBidderId = r.currentBidderId ∧ r'.startTime = r.startTime ∧
  r'.endTime = r.endTime ∧ r'.psbt = r.psbt ∧ r'.createdAt = r.createdAt

/-! ## Supporting lemmas -/

/-- Check `amountLeCurrent` holds exactly when a current bid exists and the
amount does not exceed it. -/
theorem amountLeCurrent_eq_true_iff (a : Auction) (x : Int) :
    amountLeCurrent a x = true ↔ ∃ cb, a.currentBid = some cb ∧ x ≤ cb := by
  unfold amountLeCurrent
  cases h : a.currentBid with
  | none => simp
  | some cb => simp [decide_eq_true_eq]

/-! ## C3 -/

/-- C3, counterexample: on an active auction within its window, with no
current bid and start price 100000, a bid of exactly 100000 — which is
`≤ max(startPrice, currentBid)` — is accepted, not rejected with
`BidTooLow`. -/
theorem placeBid_accepts_amount_equal_startPrice :
    exAuction.status = AuctionStatus.active ∧
    exAuction.startTime ≤ 10 ∧ (10 : Int) ≤ exAuction.endTime ∧
    exAuction.currentBid = none ∧ exAuction.startPrice = 100000 ∧
    (placeBid ⟨exAuction, []⟩ 10 ⟨"a1", "w1", 100000⟩ "u1" "b1" true
        1000000).isOk = true := by
  decide

/-- C3, amended: on an active auction within its window, `PlaceBid` fails
with the `BidTooLow` error against the current bid iff a current bid
exists and the amount does not strictly exceed it, and fails with the
`BidTooLow` error against the start price iff the current-bid check
passed and the amount is strictly below `startPrice` — so a bid equal to
`currentBid` is rejected, while a bid equal to `startPrice` is accepted
when it clears the current bid. -/
theorem placeBid_amount_gate (st : AuctionState) (now : Int)
    (req : PlaceBidRequest) (u bidID : String) (wOwned : Bool) (bal : Int)
    (hact : st.auction.status = AuctionStatus.active)
    (hstart : st.auction.startTime ≤ now)
    (hend : now ≤ st.auction.endTime) :
    (placeBid st now req u bidID wOwned bal = .error .lowerThanCurrentBid ↔
      ∃ cb, st.auction.currentBid = some cb ∧ req.amount ≤ cb)
    ∧ (placeBid st now req u bidID wOwned bal = .error .belowStartPrice ↔
      amountLeCurrent st.auction req.amount = false ∧
        req.amount < st.auction.startPrice) := by
  unfold placeBid
  rw [← amountLeCurrent_eq_true_iff st.auction req.amount]
  simp only [hact, ne_eq, not_true_eq_false, if_false, not_lt.mpr hstart,
    not_lt.mpr hend, if_false]
  constructor
  · cases h : amountLeCurrent st.auction req.amount <;> simp [h]
    split_ifs <;> simp
  · cases h : amountLeCurrent st.auction req.amount <;> simp [h]
    split_ifs <;> simp

/-- C3, witness for the amended theorem at a concrete input: a bid of
99999 on `exAuction` fails the start-price check. -/
theorem placeBid_amount_gate_witness :
    (placeBid ⟨exAuction, []⟩ 10 ⟨"a1", "w1", 99999⟩ "u1" "b1" true 1000000 =
        .error .belowStartPrice ↔
      amountLeCurrent exAuction 99999 = false ∧
        (99999 : Int) < exAuction.startPrice) :=
  (placeBid_amount_gate ⟨exAuction, []⟩ 10 ⟨"a1", "w1", 99999⟩ "u1" "b1" true
    1000000 (by decide) (by decide) (by decide)).2

/-! ## C4 -/

/-- C4, counterexample: a bid arriving exactly at `endTime` is accepted —
the code rejects with the `Ended` error only when `now` is strictly after
`endTime`, so the claimed half-open window `[startTime, endTime)` is
wrong at the right boundary. -/
theorem placeBid_accepts_at_endTime :
    exAuction.status = AuctionStatus.active ∧
    exAuction.endTime = 100 ∧
    (placeBid ⟨exAuction, []⟩ 100 ⟨"a1", "w1", 150000⟩ "u1" "b1" true
        1000000).isOk = true := by
  decide

/-- C4, amended: `PlaceBid` fails with `InvalidState` iff the status is
not `Active` (i.e. `Draft`, `Completed`, or `Cancelled`); on an `Active`
auction it fails with `NotStarted` iff `now < startTime` and with `Ended`
iff `now > endTime`; a bid is created only while the auction is `Active`
and `now` lies in the closed interval `[startTime, endTime]`. -/
theorem placeBid_state_and_window (st : AuctionState) (now : Int)
    (req : PlaceBidRequest) (u bidID : String) (wOwned : Bool) (bal : Int) :
    (placeBid st now req u bidID wOwned bal = .error .auctionNotActive ↔
      st.auction.status ≠ AuctionStatus.active)
    ∧ (st.auction.status = AuctionStatus.active →
        (placeBid st now req u bidID wOwned bal = .error .notStartedYet ↔
          now < st.auction.startTime))
    ∧ (st.auction.status = AuctionStatus.active → st.auction.startTime ≤ now →
        (placeBid st now req u bidID wOwned bal = .error .hasEnded ↔
          st.auction.endTime < now))
    ∧ (∀ p, placeBid st now req u bidID wOwned bal = .ok p →
        st.auction.status = AuctionStatus.active ∧
        st.auction.startTime ≤ now ∧ now ≤ st.auction.endTime) := by
  unfold placeBid
  by_cases h1 : st.auction.status = AuctionStatus.active
  · simp only [h1, ne_eq, not_true_eq_false, if_false]
    by_cases h2 : now < st.auction.startTime
    · simp [h2]
    · simp only [h2, if_false, not_false_eq_true, not_lt.mp h2]
      by_cases h3 : st.auction.endTime < now
      · simp [h3]
      · simp only [h3, if_false, not_lt.mp h3]
        split_ifs <;> simp
  · simp [h1]

/-- C4, witness for the amended theorem at a concrete input. -/
theorem placeBid_state_and_window_witness :
    (placeBid ⟨exAuction, []⟩ 10 ⟨"a1", "w1", 150000⟩ "u1" "b1" true 1000000 =
        .error .auctionNotActive ↔
      exAuction.status ≠ AuctionStatus.active) :=
  (placeBid_state_and_window ⟨exAuction, []⟩ 10 ⟨"a1", "w1", 150000⟩ "u1" "b1"
    true 1000000).1

/-! ## C5 -/

/-- C5, counterexample: on an active auction with a standing bid and no
buy-now price, `Finalize` exactly at `endTime` fails with `NotEnded` —
though the claim says it proceeds whenever `now ≥ endTime` — because the
code's gate is `!now.After(endTime)`, i.e. it fails for `now ≤ endTime`. -/
theorem finalize_notEnded_at_endTime :
    exAuctionBid.status = AuctionStatus.active ∧
    exAuctionBid.endTime = 100 ∧
    buyNowTriggered exAuctionBid = false ∧
    finalizeAuction exAuctionBid 100 "u1" = .error .notEnded :=
  ⟨rfl, rfl, rfl, rfl⟩

/-- C5, amended: on an active auction, `Finalize` fails with `NotEnded`
iff `now ≤ endTime` and no current bid meets `buyNowPrice`; a current bid
`≥ buyNowPrice` short-circuits the time gate, and when `now > endTime`
it proceeds regardless of buy-now. -/
theorem finalize_notEnded_iff (a : Auction) (now : Int) (u : String)
    (hact : a.status = AuctionStatus.active) :
    finalizeAuction a now u = .error .notEnded ↔
      now ≤ a.endTime ∧ buyNowTriggered a = false := by
  unfold finalizeAuction
  simp only [hact, ne_eq, not_true_eq_false, if_false]
  by_cases hg : ¬ a.endTime < now ∧ buyNowTriggered a = false
  · have h1 : now ≤ a.endTime := not_lt.mp hg.1
    simp [hg, h1, hg.2]
  · simp only [hg, if_false]
    have hn : ¬ (now ≤ a.endTime ∧ buyNowTriggered a = false) := by
      intro hc
      exact hg ⟨not_lt.mpr hc.1, hc.2⟩
    simp only [hn, iff_false]
    cases hcb : a.currentBid with
    | none => simp [hcb]
    | some cb =>
        cases hb : a.currentBidderId with
        | none => simp [hcb, hb]
        | some b =>
            simp only [hcb, hb]
            split_ifs <;> simp

/-- C5, witness for the amended theorem at a concrete input: finalizing
`exAuctionBid` at time 50 fails with `NotEnded`. -/
theorem finalize_notEnded_iff_witness :
    finalizeAuction exAuctionBid 50 "u1" = .error .notEnded ↔
      (50 : Int) ≤ exAuctionBid.endTime ∧ buyNowTriggered exAuctionBid = false :=
  finalize_notEnded_iff exAuctionBid 50 "u1" (by decide)

/-! ## C6 -/

/-- C6: on an active auction past the finalize gate (ended or buy-now
met): with no current bid or no current bidder recorded, any caller's
`Finalize` yields `Cancelled` with no authorization check; with a current
bid below a set reserve, likewise `Cancelled` for any caller; with a
qualifying winning bid (reserve absent or met), a caller other than
`currentBidderId` gets `Unauthorized` (and no transition is applied),
while the current bidder's call yields `Completed`. -/
theorem finalize_gate_branches (a : Auction) (now : Int) (u : String)
    (hact : a.status = AuctionStatus.active)
    (hgate : a.endTime < now ∨ buyNowTriggered a = true) :
    ((a.currentBid = none ∨ a.currentBidderId = none) →
      finalizeAuction a now u = .ok { a with status := AuctionStatus.cancelled })
    ∧ (∀ cb rp, a.currentBid = some cb → a.reservePrice = some rp → cb < rp →
      finalizeAuction a now u = .ok { a with status := AuctionStatus.cancelled })
    ∧ (∀ cb b, a.currentBid = some cb → a.currentBidderId = some b →
      (∀ rp, a.reservePrice = some rp → rp ≤ cb) →
      (b ≠ u → finalizeAuction a now u = .error .notWinningBidder)
      ∧ (b = u →
        finalizeAuction a now u = .ok { a with status := AuctionStatus.completed })) := by
  have hg : ¬ (¬ a.endTime < now ∧ buyNowTriggered a = false) := by
    rcases hgate with h | h
    · exact fun hc => hc.1 h
    · exact fun hc => by rw [h] at hc; exact absurd hc.2 (by simp)
  unfold finalizeAuction
  simp only [hact, ne_eq, not_true_eq_false, if_false, hg]
  refine ⟨?_, ?_, ?_⟩
  · rintro (hcb | hb)
    · simp [hcb]
    · cases hcb : a.currentBid with
      | none => simp [hcb]
      | some cb => simp [hcb, hb]
  · intro cb rp hcb hrp hlt
    cases hb : a.currentBidderId with
    | none => simp [hcb, hb]
    | some b =>
        have hr : reserveUnmet a = true := by
          unfold reserveUnmet
          rw [hrp, hcb]
          exact decide_eq_true hlt
        simp [hcb, hb, hr]
  · intro cb b hcb hb hres
    have hr : reserveUnmet a = false := by
      unfold reserveUnmet
      rw [hcb]
      cases hrp : a.reservePrice with
      | none => rfl
      | some rp => exact decide_eq_false (not_lt.mpr (hres rp hrp))
    constructor
    · intro hne
      simp [hcb, hb, hr, hne]
    · intro heq
      simp [hcb, hb, hr, heq]

/-- C6, witness: the winning bidder finalizes `exAuctionBid` at time 101
and it completes. -/
theorem finalize_gate_branches_witness :
    finalizeAuction exAuctionBid 101 "u1" =
      .ok { exAuctionBid with status := AuctionStatus.completed } :=
  ((finalize_gate_branches exAuctionBid 101 "u1" (by decide)
      (Or.inl (by decide))).2.2 150000 "u1" rfl rfl
    (fun rp hrp => by simp [exAuctionBid, exAuction] at hrp)).2 rfl

/-! ## C2 -/

/-- C2: the two `CreateBid` transactions of bids 150000 (alice) then
120000 (bob), interleaved insert/insert/read/read/write/write, both
commit — both passed their check against the stale NULL `current_bid` —
yet the persisted `current_bid` ends at 120000, not the maximum 150000:
the separate read-then-write admits a lost update exactly as the spec's
concurrency section warns. -/
theorem createBid_lost_update :
    runTwoTx ⟨none, none, []⟩ (txInit "alice" 150000) (txInit "bob" 120000)
        [true, true, false, false, true, false] =
      (⟨some 120000, some "bob", [("alice", 150000), ("bob", 120000)]⟩,
        ⟨"alice", 150000, 3, none⟩, ⟨"bob", 120000, 3, none⟩) := by
  rfl

/-! ## C8 -/

/-- C8, counterexample: two ended auctions with no bids; the repository
fails `CompleteAuction` on the first.  The sweep returns the storage
error with no transitions applied — the second auction, whose
cancellation condition holds, is never examined. -/
theorem processEnded_abort_counterexample :
    endedA2.currentBid = none ∧
    processEnded (fun s => s == "a1") [exAuction, endedA2] = ([], some "a1") :=
  ⟨rfl, rfl⟩

/-- The sweep's handling of one auction whose cancellation condition
holds when the repository fails: the sweep stops at once. -/
theorem processEnded_cons_fail (failOn : String → Bool) (x : Auction)
    (l : List Auction)
    (hc : (x.currentBid.isNone || x.currentBidderId.isNone) = true ∨
      reserveUnmet x = true)
    (hf : failOn x.id = true) :
    processEnded failOn (x :: l) = ([], some x.id) := by
  by_cases h1 : (x.currentBid.isNone || x.currentBidderId.isNone) = true
  · simp [processEnded, h1, hf]
  · rcases hc with hc | hc
    · exact absurd hc h1
    · simp [processEnded, h1, hc, hf]

/-- The sweep's handling of one auction whose cancellation condition
holds when the repository succeeds: record the transition, continue. -/
theorem processEnded_cons_ok (failOn : String → Bool) (x : Auction)
    (l : List Auction)
    (hc : (x.currentBid.isNone || x.currentBidderId.isNone) = true ∨
      reserveUnmet x = true)
    (hf : failOn x.id = false) :
    processEnded failOn (x :: l) =
      ((x.id, AuctionStatus.cancelled) :: (processEnded failOn l).1,
        (processEnded failOn l).2) := by
  by_cases h1 : (x.currentBid.isNone || x.currentBidderId.isNone) = true
  · simp [processEnded, h1, hf]
  · rcases hc with hc | hc
    · exact absurd hc h1
    · simp [processEnded, h1, hc, hf]

/-- The sweep skips an auction with a recorded bid whose reserve is met. -/
theorem processEnded_cons_skip (failOn : String → Bool) (x : Auction)
    (l : List Auction)
    (h1 : (x.currentBid.isNone || x.currentBidderId.isNone) = false)
    (h2 : reserveUnmet x = false) :
    processEnded failOn (x :: l) = processEnded failOn l := by
  simp [processEnded, h1, h2]

/-- C8, amended: a storage failure while resolving one auction aborts
the sweep.  If the sweep resolves a prefix `xs` without a storage
failure and then meets an auction `a` whose cancellation condition holds
(no recorded bid/bidder, or reserve unmet) but whose `CompleteAuction`
fails, `ProcessEndedAuctions` returns that error at once: the prefix's
transitions stand and no auction after `a` is examined in that sweep. -/
theorem processEnded_abort (failOn : String → Bool) (xs ys : List Auction)
    (a : Auction)
    (hxs : (processEnded failOn xs).2 = none)
    (hcond : (a.currentBid.isNone || a.currentBidderId.isNone) = true ∨
      reserveUnmet a = true)
    (hf : failOn a.id = true) :
    processEnded failOn (xs ++ a :: ys) = ((processEnded failOn xs).1, some a.id) := by
  induction xs with
  | nil => simpa using processEnded_cons_fail failOn a ys hcond hf
  | cons x xs ih =>
      rw [List.cons_append]
      by_cases h1 : (x.currentBid.isNone || x.currentBidderId.isNone) = true
      · by_cases h2 : failOn x.id = true
        · rw [processEnded_cons_fail failOn x xs (Or.inl h1) h2] at hxs
          simp at hxs
        · rw [Bool.not_eq_true] at h2
          rw [processEnded_cons_ok failOn x xs (Or.inl h1) h2] at hxs
          rw [processEnded_cons_ok failOn x (xs ++ a :: ys) (Or.inl h1) h2,
            ih hxs, processEnded_cons_ok failOn x xs (Or.inl h1) h2]
      · rw [Bool.not_eq_true] at h1
        by_cases h3 : reserveUnmet x = true
        · by_cases h2 : failOn x.id = true
          · rw [processEnded_cons_fail failOn x xs (Or.inr h3) h2] at hxs
            simp at hxs
          · rw [Bool.not_eq_true] at h2
            rw [processEnded_cons_ok failOn x xs (Or.inr h3) h2] at hxs
            rw [processEnded_cons_ok failOn x (xs ++ a :: ys) (Or.inr h3) h2,
              ih hxs, processEnded_cons_ok failOn x xs (Or.inr h3) h2]
        · rw [Bool.not_eq_true] at h3
          rw [processEnded_cons_skip failOn x xs h1 h3] at hxs
          rw [processEnded_cons_skip failOn x (xs ++ a :: ys) h1 h3, ih hxs,
            processEnded_cons_skip failOn x xs h1 h3]

/-- C8, witness for the amended theorem: empty prefix, failing auction
`exAuction`, one pending auction behind it. -/
theorem processEnded_abort_witness :
    processEnded (fun s => s == "a1") ([] ++ exAuction :: [endedA2]) =
      ((processEnded (fun s => s == "a1") []).1, some exAuction.id) :=
  processEnded_abort (fun s => s == "a1") [] [endedA2] exAuction rfl
    (Or.inl rfl) rfl

/-! ## C9 -/

/-- C9, counterexample: session `s1` registers, subscribes to auction
`A`, and overflows during a global broadcast.  The hub closes its channel
and removes it from the global client set, yet the closed session is
still a member of auction `A`'s subscription set. -/
theorem hub_closed_session_remains_subscribed :
    "s1" ∈ (hubRun hubInit c9trace).closed ∧
    "s1" ∈ subsOf (hubRun hubInit c9trace) "A" ∧
    "s1" ∉ (hubRun hubInit c9trace).clients := by
  decide

/-- Replacing an existing key's value is observed by a later lookup. -/
theorem lookupSubs_setSubs (l : List (String × List String)) (aid : String)
    (v subs : List String) (h : lookupSubs l aid = some subs) :
    lookupSubs (setSubs l aid v) aid = some v := by
  induction l with
  | nil => simp [lookupSubs] at h
  | cons p rest ih =>
      by_cases hk : p.1 = aid
      · simp [lookupSubs, setSubs, hk]
      · rw [show p = (p.1, p.2) from rfl] at h ⊢
        simp only [lookupSubs, setSubs, hk, if_false] at h ⊢
        exact ih h

/-- C9, amended: a session whose queue overflows during a broadcast is
closed and removed from the global client set; an auction-scoped
broadcast also removes it from that auction's subscription set, and
nothing removes it from any other auction's subscription set — the hub
does not purge a disconnected session from all sets it belongs to. -/
theorem hub_overflow_disconnects (s : HubState) (full : List String)
    (aid c : String) :
    (c ∈ s.clients → c ∈ full →
      c ∉ (hubStep s (HubStep.broadcastAll full)).clients ∧
      c ∈ (hubStep s (HubStep.broadcastAll full)).closed ∧
      (hubStep s (HubStep.broadcastAll full)).auctionClients = s.auctionClients)
    ∧ (c ∈ subsOf s aid → c ∈ full →
      c ∉ (hubStep s (HubStep.broadcastAuction aid full)).clients ∧
      c ∉ subsOf (hubStep s (HubStep.broadcastAuction aid full)) aid ∧
      c ∈ (hubStep s (HubStep.broadcastAuction aid full)).closed) := by
  constructor
  · intro hm hf
    refine ⟨?_, ?_, rfl⟩
    · intro hmem
      simp only [hubStep] at hmem
      rw [List.mem_filter] at hmem
      exact absurd hf (by simpa using hmem.2)
    · simp only [hubStep]
      refine List.mem_append.mpr (Or.inr ?_)
      rw [List.mem_filter]
      exact ⟨hm, by simpa using hf⟩
  · intro hm hf
    unfold subsOf at hm
    cases hl : lookupSubs s.auctionClients aid with
    | none => rw [hl] at hm; simp at hm
    | some subs =>
        rw [hl] at hm
        simp only [Option.getD_some] at hm
        simp only [hubStep, hl]
        refine ⟨?_, ?_, ?_⟩
        · intro hmem
          rw [List.mem_filter] at hmem
          have := hmem.2
          simp only [decide_eq_true_eq] at this
          exact this ⟨hm, hf⟩
        · unfold subsOf
          rw [lookupSubs_setSubs s.auctionClients aid _ subs hl]
          simp only [Option.getD_some]
          intro hmem
          rw [List.mem_filter] at hmem
          exact absurd hf (by simpa using hmem.2)
        · refine List.mem_append.mpr (Or.inr ?_)
          rw [List.mem_filter]
          exact ⟨hm, by simpa using hf⟩

/-- C9, witness for the amended theorem: both parts at the concrete hub
`exHub` with `s1`'s queue full. -/
theorem hub_overflow_disconnects_witness :
    ("s1" ∉ (hubStep exHub (HubStep.broadcastAll ["s1"])).clients ∧
      "s1" ∈ (hubStep exHub (HubStep.broadcastAll ["s1"])).closed ∧
      (hubStep exHub (HubStep.broadcastAll ["s1"])).auctionClients =
        exHub.auctionClients)
    ∧ ("s1" ∉ (hubStep exHub (HubStep.broadcastAuction "A" ["s1"])).clients ∧
      "s1" ∉ subsOf (hubStep exHub (HubStep.broadcastAuction "A" ["s1"])) "A" ∧
      "s1" ∈ (hubStep exHub (HubStep.broadcastAuction "A" ["s1"])).closed) :=
  ⟨(hub_overflow_disconnects exHub ["s1"] "A" "s1").1 (by decide) (by decide),
   (hub_overflow_disconnects exHub ["s1"] "A" "s1").2 (by decide) (by decide)⟩

/-! ## C10 -/

/-- C10: when the request context does not carry a string under the key
"userID", `ServeWs` panics at the unchecked `.(string)` assertion after a
successful upgrade — it returns no handled error and treats nothing as
unauthenticated — and on no path does it register a client for such a
request. -/
theorem serveWs_panics_without_string_userID (v : CtxValue)
    (hv : ∀ s, v ≠ CtxValue.strVal s) :
    (serveWs true v).panicked = true ∧
    ∀ up uid, ServeEvent.clientRegistered uid ∉ (serveWs up v).events := by
  cases v with
  | strVal s => exact absurd rfl (hv s)
  | absent =>
      refine ⟨rfl, ?_⟩
      intro up uid
      cases up <;> simp [serveWs]
  | nonString =>
      refine ⟨rfl, ?_⟩
      intro up uid
      cases up <;> simp [serveWs]

/-- C10, witness: a context with no "userID" value at all. -/
theorem serveWs_panics_without_string_userID_witness :
    (serveWs true CtxValue.absent).panicked = true ∧
    ServeEvent.clientRegistered "u1" ∉ (serveWs true CtxValue.absent).events :=
  ⟨(serveWs_panics_without_string_userID CtxValue.absent
      (fun _ h => CtxValue.noConfusion h)).1,
   (serveWs_panics_without_string_userID CtxValue.absent
      (fun _ h => CtxValue.noConfusion h)).2 true "u1"⟩

/-! ## C7 -/

/-- C7: `CompleteAuction` with status `Completed` leaves every NFT row
unchanged (the auction reference is retained for history); with status
`Cancelled` it sets `auction_id` to NULL and stamps `updated_at` on
exactly the rows referencing the auction, leaving every other NFT column
and every non-referencing row unchanged; in both cases the auction row
with that id gets the new status and `updated_at` with all other columns
unchanged, and other auction rows are unchanged. -/
theorem completeAuction_frame (db : Store) (aid : String) (now : Int) :
    ((completeAuction db aid AuctionStatus.completed now).nfts = db.nfts)
    ∧ (completeAuction db aid AuctionStatus.cancelled now).nfts.length =
        db.nfts.length
    ∧ (∀ i (h : i < db.nfts.length)
        (h' : i < (completeAuction db aid AuctionStatus.cancelled now).nfts.length),
        nftOtherFieldsEq (db.nfts.get ⟨i, h⟩)
          ((completeAuction db aid AuctionStatus.cancelled now).nfts.get ⟨i, h'⟩)
        ∧ ((db.nfts.get ⟨i, h⟩).auctionId = some aid →
            ((completeAuction db aid AuctionStatus.cancelled now).nfts.get
                ⟨i, h'⟩).auctionId = none ∧
            ((completeAuction db aid AuctionStatus.cancelled now).nfts.get
                ⟨i, h'⟩).updatedAt = now)
        ∧ ((db.nfts.get ⟨i, h⟩).auctionId ≠ some aid →
            (completeAuction db aid AuctionStatus.cancelled now).nfts.get ⟨i, h'⟩ =
              db.nfts.get ⟨i, h⟩))
    ∧ (∀ status, status = AuctionStatus.completed ∨ status = AuctionStatus.cancelled →
        (completeAuction db aid status now).auctions.length = db.auctions.length
        ∧ ∀ i (h : i < db.auctions.length)
            (h' : i < (completeAuction db aid status now).auctions.length),
            auctionOtherFieldsEq (db.auctions.get ⟨i, h⟩)
              ((completeAuction db aid status now).auctions.get ⟨i, h'⟩)
            ∧ ((db.auctions.get ⟨i, h⟩).id = aid →
                ((completeAuction db aid status now).auctions.get ⟨i, h'⟩).status =
                  status ∧
                ((completeAuction db aid status now).auctions.get ⟨i, h'⟩).updatedAt =
                  now)
            ∧ ((db.auctions.get ⟨i, h⟩).id ≠ aid →
                (completeAuction db aid status now).auctions.get ⟨i, h'⟩ =
                  db.auctions.get ⟨i, h⟩)) := by
  have hnfts : (completeAuction db aid AuctionStatus.cancelled now).nfts =
      db.nfts.map (fun n =>
        if n.auctionId = some aid then { n with auctionId := none, updatedAt := now }
        else n) := by
    simp [completeAuction]
  have hauc : ∀ status, (completeAuction db aid status now).auctions =
      db.auctions.map (fun r =>
        if r.id = aid then { r with status := status, updatedAt := now } else r) := by
    intro status
    by_cases hs : status = AuctionStatus.completed <;> simp [completeAuction, hs]
  refine ⟨by simp [completeAuction], by simp [hnfts], ?_, ?_⟩
  · intro i h h'
    have hg : (completeAuction db aid AuctionStatus.cancelled now).nfts.get ⟨i, h'⟩ =
        if (db.nfts.get ⟨i, h⟩).auctionId = some aid then
          { db.nfts.get ⟨i, h⟩ with auctionId := none, updatedAt := now }
        else db.nfts.get ⟨i, h⟩ := by
      rw [List.get_of_eq hnfts, List.get_map]
    by_cases hn : (db.nfts.get ⟨i, h⟩).auctionId = some aid
    · rw [hg, if_pos hn]
      exact ⟨⟨rfl, rfl, rfl, rfl, rfl, rfl, rfl, rfl, rfl, rfl, rfl⟩,
        fun _ => ⟨rfl, rfl⟩, fun hne => absurd hn hne⟩
    · rw [hg, if_neg hn]
      exact ⟨⟨rfl, rfl, rfl, rfl, rfl, rfl, rfl, rfl, rfl, rfl, rfl⟩,
        fun hc => absurd hc hn, fun _ => rfl⟩
  · intro status _
    refine ⟨by simp [hauc status], ?_⟩
    intro i h h'
    have hg : (completeAuction db aid status now).auctions.get ⟨i, h'⟩ =
        if (db.auctions.get ⟨i, h⟩).id = aid then
          { db.auctions.get ⟨i, h⟩ with status := status, updatedAt := now }
        else db.auctions.get ⟨i, h⟩ := by
      rw [List.get_of_eq (hauc status), List.get_map]
    by_cases hr : (db.auctions.get ⟨i, h⟩).id = aid
    · rw [hg, if_pos hr]
      exact ⟨⟨rfl, rfl, rfl, rfl, rfl, rfl, rfl, rfl, rfl, rfl, rfl, rfl⟩,
        fun _ => ⟨rfl, rfl⟩, fun hne => absurd hr hne⟩
    · rw [hg, if_neg hr]
      exact ⟨⟨rfl, rfl, rfl, rfl, rfl, rfl, rfl, rfl, rfl, rfl, rfl, rfl⟩,
        fun hc => absurd hc hr, fun _ => rfl⟩

/-- C7, witness: the two-row store whose NFT references auction `a1`:
cancelling clears its reference, completing leaves the rows alone. -/
theorem completeAuction_frame_witness :
    ((completeAuction exStore "a1" AuctionStatus.completed 7).nfts = exStore.nfts)
    ∧ ((exStore.nfts.get ⟨0, by decide⟩).auctionId = some "a1" →
        ((completeAuction exStore "a1" AuctionStatus.cancelled 7).nfts.get
            ⟨0, by decide⟩).auctionId = none ∧
        ((completeAuction exStore "a1" AuctionStatus.cancelled 7).nfts.get
            ⟨0, by decide⟩).updatedAt = 7) :=
  ⟨(completeAuction_frame exStore "a1" 7).1,
   ((completeAuction_frame exStore "a1" 7).2.2.1 0 (by decide) (by decide)).2.1⟩

/-! ## C1 -/

/-- Relation `obLe` is reflexive. -/
theorem obLe_refl (a : Option Int) : obLe a a := by
  cases a <;> simp [obLe]

/-- Relation `obLe` is transitive. -/
theorem obLe_trans (a b c : Option Int) (h1 : obLe a b) (h2 : obLe b c) :
    obLe a c := by
  cases a <;> cases b <;> cases c <;> simp [obLe] at * <;> omega

/-- Appending an accepted bid to a list with no accepted bid makes its
amount the accepted maximum. -/
theorem maxAccepted_append_none (bs : List Bid) (b : Bid)
    (h : maxAccepted bs = none) (hb : b.accepted = true) :
    maxAccepted (bs ++ [b]) = some b.amount := by
  induction bs with
  | nil => simp [maxAccepted, hb]
  | cons x xs ih =>
      rw [maxAccepted] at h
      cases hx : maxAccepted xs with
      | none =>
          rw [hx] at h
          by_cases hxa : x.accepted = true
          · rw [if_pos hxa] at h
            exact absurd h (by simp)
          · rw [List.cons_append, maxAccepted, ih hx]
            rw [Bool.not_eq_true] at hxa
            simp [hxa]
      | some m =>
          rw [hx] at h
          by_cases hxa : x.accepted = true <;> simp [hxa] at h

/-- Appending an accepted bid to a list with accepted maximum `m` yields
accepted maximum `max m` the new amount. -/
theorem maxAccepted_append_some (bs : List Bid) (b : Bid) (m : Int)
    (h : maxAccepted bs = some m) (hb : b.accepted = true) :
    maxAccepted (bs ++ [b]) = some (max m b.amount) := by
  induction bs generalizing m with
  | nil => simp [maxAccepted] at h
  | cons x xs ih =>
      rw [maxAccepted] at h
      rw [List.cons_append, maxAccepted]
      cases hx : maxAccepted xs with
      | none =>
          rw [hx] at h
          by_cases hxa : x.accepted = true
          · rw [if_pos hxa] at h
            rw [Option.some_inj] at h
            rw [maxAccepted_append_none xs b hx hb]
            simp [hxa, h]
          · rw [if_neg hxa] at h
            exact absurd h (by simp)
      | some m' =>
          rw [hx] at h
          rw [ih m' hx]
          by_cases hxa : x.accepted = true
          · simp only [hxa, if_true, Option.some_inj] at h
            simp only [hxa, if_true, Option.some_inj]
            rw [← h, max_assoc]
          · simp [hxa] at h ⊢
            rw [h]

/-- Operation `CreateBid` preserves the highest-bid invariant when the new bid is
accepted and strictly exceeds the current bid (when one exists). -/
theorem createBid_inv (st : AuctionState) (bid : Bid)
    (h : st.auction.currentBid = maxAccepted st.bids)
    (hacc : bid.accepted = true)
    (hgt : amountLeCurrent st.auction bid.amount = false) :
    (createBid st bid).auction.currentBid = maxAccepted (createBid st bid).bids := by
  unfold createBid
  split
  · rename_i hcb
    have hm : maxAccepted st.bids = none := by rw [← h, hcb]
    show some bid.amount = maxAccepted (st.bids ++ [bid])
    rw [maxAccepted_append_none st.bids bid hm hacc]
  · rename_i cb hcb
    have hm : maxAccepted st.bids = some cb := by rw [← h, hcb]
    have hlt : cb < bid.amount := by
      unfold amountLeCurrent at hgt
      rw [hcb] at hgt
      simpa using hgt
    rw [if_pos hlt]
    show some bid.amount = maxAccepted (st.bids ++ [bid])
    rw [maxAccepted_append_some st.bids bid cb hm hacc]
    rw [max_eq_right (le_of_lt hlt)]

/-- Operation `CreateBid` never lowers the stored `currentBid`. -/
theorem createBid_mono (st : AuctionState) (bid : Bid) :
    obLe st.auction.currentBid (createBid st bid).auction.currentBid := by
  unfold createBid
  split
  · rename_i hcb
    rw [hcb]
    trivial
  · rename_i cb hcb
    rw [hcb]
    by_cases hlt : cb < bid.amount
    · rw [if_pos hlt]
      exact le_of_lt hlt
    · rw [if_neg hlt]
      show obLe (some cb) st.auction.currentBid
      rw [hcb]
      exact le_refl cb

/-- Each `PlaceBid` attempt either leaves the state unchanged (a
failure) or performs `CreateBid` with an accepted bid that cleared the
current-bid check. -/
theorem stepBid_cases (st : AuctionState) (r : BidAttempt) :
    stepBid st r = st ∨
    ∃ bid : Bid, bid.accepted = true ∧
      amountLeCurrent st.auction bid.amount = false ∧
      stepBid st r = createBid st bid := by
  unfold stepBid placeBid
  by_cases h1 : st.auction.status ≠ AuctionStatus.active
  · simp [h1]
  by_cases h2 : r.now < st.auction.startTime
  · simp [h1, h2]
  by_cases h3 : st.auction.endTime < r.now
  · simp [h1, h2, h3]
  by_cases h4 : amountLeCurrent st.auction r.amount = true
  · simp [h1, h2, h3, h4]
  by_cases h5 : r.amount < st.auction.startPrice
  · simp [h1, h2, h3, h4, h5]
  by_cases h6 : r.walletOwned = true
  case neg => simp [h1, h2, h3, h4, h5, h6]
  by_cases h7 : r.balance < r.amount
  · simp [h1, h2, h3, h4, h5, h6, h7]
  · refine Or.inr ⟨⟨r.bidID, st.auction.id, r.bidderId, r.walletId, r.amount,
      r.now, true, none⟩, rfl, by simpa using h4, ?_⟩
    simp [h1, h2, h3, h4, h5, h6, h7]

/-- One attempt preserves the highest-bid invariant. -/
theorem stepBid_inv (st : AuctionState) (r : BidAttempt)
    (h : st.auction.currentBid = maxAccepted st.bids) :
    (stepBid st r).auction.currentBid = maxAccepted (stepBid st r).bids := by
  rcases stepBid_cases st r with he | ⟨bid, hacc, hgt, he⟩
  · rw [he]; exact h
  · rw [he]; exact createBid_inv st bid h hacc hgt

/-- One attempt never lowers the stored `currentBid`. -/
theorem stepBid_mono (st : AuctionState) (r : BidAttempt) :
    obLe st.auction.currentBid (stepBid st r).auction.currentBid := by
  rcases stepBid_cases st r with he | ⟨bid, _, _, he⟩
  · rw [he]; exact obLe_refl _
  · rw [he]; exact createBid_mono st bid

/-- A whole attempt sequence preserves the highest-bid invariant. -/
theorem runBids_inv (rs : List BidAttempt) (st : AuctionState)
    (h : st.auction.currentBid = maxAccepted st.bids) :
    (runBids st rs).auction.currentBid = maxAccepted (runBids st rs).bids := by
  induction rs generalizing st with
  | nil => exact h
  | cons r rs ih => exact ih (stepBid st r) (stepBid_inv st r h)

/-- A whole attempt sequence never lowers the stored `currentBid`. -/
theorem runBids_mono (rs : List BidAttempt) (st : AuctionState) :
    obLe st.auction.currentBid (runBids st rs).auction.currentBid := by
  induction rs generalizing st with
  | nil => exact obLe_refl _
  | cons r rs ih =>
      exact obLe_trans _ _ _ (stepBid_mono st r) (ih (stepBid st r))

/-- Attempt sequences compose. -/
theorem runBids_append (st : AuctionState) (rs1 rs2 : List BidAttempt) :
    runBids st (rs1 ++ rs2) = runBids (runBids st rs1) rs2 := by
  simp [runBids, List.foldl_append]

/-- C1: starting from a fresh auction (no bids, no `currentBid`), after
any sequence of `PlaceBid` operations — successful ones advance the
state, failed ones change nothing — the stored `currentBid` equals the
maximum amount among the accepted bids recorded for the auction, and
along every prefix of the sequence the `currentBid` value is
monotonically non-decreasing. -/
theorem currentBid_max_and_monotone (a : Auction) (ha : a.currentBid = none)
    (rs rs1 rs2 : List BidAttempt) (hsplit : rs = rs1 ++ rs2) :
    (runBids ⟨a, []⟩ rs).auction.currentBid =
      maxAccepted (runBids ⟨a, []⟩ rs).bids
    ∧ obLe (runBids ⟨a, []⟩ rs1).auction.currentBid
        (runBids ⟨a, []⟩ rs).auction.currentBid := by
  constructor
  · exact runBids_inv rs ⟨a, []⟩ (by simpa [maxAccepted] using ha)
  · rw [hsplit, runBids_append]
    exact runBids_mono rs2 _

/-- C1, witness: the spec's scenario 1 (bids 150000, 120000, 200000)
split after its first two attempts. -/
theorem currentBid_max_and_monotone_witness :
    ((runBids ⟨exAuction, []⟩ exAttempts).auction.currentBid =
      maxAccepted (runBids ⟨exAuction, []⟩ exAttempts).bids)
    ∧ obLe (runBids ⟨exAuction, []⟩
          [⟨5, 150000, "u1", "w1", "b1", true, 10000000⟩,
           ⟨6, 120000, "u2", "w2", "b2", true, 10000000⟩]).auction.currentBid
        (runBids ⟨exAuction, []⟩ exAttempts).auction.currentBid :=
  currentBid_max_and_monotone exAuction rfl exAttempts
    [⟨5, 150000, "u1", "w1", "b1", true, 10000000⟩,
     ⟨6, 120000, "u2", "w2", "b2", true, 10000000⟩]
    [⟨7, 200000, "u3", "w3", "b3", true, 10000000⟩] rfl

end Satonic
